import Mathlib

/-!
# Verification of the Oasis-2026-Budget pipeline

Shallow embedding of the data pipeline of `src/app.py` (an HOA budget
dashboard).  Monetary amounts are modelled as rationals (`ℚ`); the script's
floating-point arithmetic is exact on the dyadic/decimal values involved, and
all claims below are stated over exact arithmetic.  Tables are ordered lists
of rows, mirroring the dataframe with its default positional integer index.
-/

namespace Oasis

/- Batteries marks the rational operations `@[irreducible]`, which blocks
`decide`-style evaluation of the embedded pipeline on concrete fixtures;
restore the ordinary transparency inside this development. -/
attribute [local semireducible] Rat.add Rat.mul Rat.sub Rat.inv

/-- A decimal digit character. -/
def isDigitChar (c : Char) : Bool := '0' ≤ c && c ≤ '9'

/-- ASCII whitespace: surrounding whitespace accepted by the numeric cell
parser, and the characters matched by the regex class `\s` (restricted to
ASCII; the notes data is ASCII). -/
def isWsChar (c : Char) : Bool :=
  c = ' ' || c = '\t' || c = '\n' || c = '\r' || c = '\x0b' || c = '\x0c'

/-- Numeric value of a run of digit characters. -/
def digitsVal (l : List Char) : ℕ := l.foldl (fun a c => 10 * a + (c.toNat - 48)) 0

/-- Parse the part of a numeric cell after the optional sign: a plain decimal
literal (`"12"`, `"12.5"`, `"12."`, `".5"`), the shape `pandas.to_numeric`
accepts for such cells.  Anything left over (currency symbols, thousands
separators, letters) makes the whole cell non-numeric: `none`. -/
def parseUnsigned (l : List Char) : Option ℚ :=
  let ip := l.takeWhile isDigitChar
  let rest := l.dropWhile isDigitChar
  match rest with
  | [] => if ip.isEmpty then none else some (digitsVal ip : ℚ)
  | '.' :: fr =>
    let fp := fr.takeWhile isDigitChar
    if fr.dropWhile isDigitChar = [] && !(ip.isEmpty && fp.isEmpty) then
      some ((digitsVal ip : ℚ) + (digitsVal fp : ℚ) / (10 : ℚ) ^ fp.length)
    else none
  | _ => none

/-- Strip surrounding whitespace from a character list. -/
def trimWs (l : List Char) : List Char :=
  ((l.dropWhile isWsChar).reverse.dropWhile isWsChar).reverse

/-- `pandas.to_numeric(cell, errors='coerce')` on one cell, restricted to
plain signed decimal literals (the script's data has no exponent or
`inf`/`nan` spellings): surrounding whitespace is ignored, an optional sign
is followed by a decimal literal, and any other content makes the cell
non-numeric (`none`, pandas's `NaN`).  `pandas` does *not* strip currency
symbols or thousands separators: such cells are simply non-numeric. -/
def parseDecimal (s : String) : Option ℚ :=
  match trimWs s.data with
  | '-' :: rest => (parseUnsigned rest).map (fun q => -q)
  | '+' :: rest => parseUnsigned rest
  | l => parseUnsigned l

/-- One monetary cell after normalization: src/app.py line 47,
`pd.to_numeric(df[col], errors='coerce').fillna(0)` — a parse failure
becomes `NaN`, which `fillna(0)` turns into `0`. -/
def toNumeric (s : String) : ℚ := (parseDecimal s).getD 0

/-- One budget row of the loaded table, with the columns the pipeline reads:
`Line`, `Category`, `Area`, the three monetary columns, and `2026 Notes`.
`Line` is a rational because line numbers may be fractional (sub-lines). -/
structure Row where
  line : ℚ
  category : String
  area : String
  budget2026 : ℚ
  actuals2025 : ℚ
  actuals2024 : ℚ
  note : String
deriving DecidableEq

/-- Currency conversion of one value: src/app.py lines 63–64,
`val * rates[currency]`. -/
def convert (rate : ℚ) (val : ℚ) : ℚ := val * rate

/-- The fixed rate table of src/app.py line 60. -/
def rateMXN : ℚ := 1
/-- USD rate, src/app.py line 60. -/
def rateUSD : ℚ := 58 / 1000
/-- CAD rate, src/app.py line 60. -/
def rateCAD : ℚ := 79 / 1000

/-- Conversion applied to the three monetary columns of one row:
src/app.py lines 97–99 (`df[col] = df[col].apply(convert)`). -/
def convertRow (rate : ℚ) (r : Row) : Row :=
  { r with
    budget2026 := convert rate r.budget2026
    actuals2025 := convert rate r.actuals2025
    actuals2024 := convert rate r.actuals2024 }

/-- Conversion applied to the whole table. -/
def convertTable (rate : ℚ) (T : List Row) : List Row := T.map (convertRow rate)

/-- `Increase_Amt` of src/app.py line 102: `2026 Budget - 2025 Actuals`. -/
def increaseAmt (r : Row) : ℚ := r.budget2026 - r.actuals2025

/-- `Var %` of src/app.py lines 103–104: `100.0` when the 2025 actual is zero
and the 2026 budget is positive; otherwise `Increase_Amt / 2025 Actuals * 100`
when the 2025 actual is nonzero, and `0` when it is zero.  Division happens
only under the nonzero guard, so no division by zero occurs. -/
def varPct (r : Row) : ℚ :=
  if r.actuals2025 = 0 ∧ 0 < r.budget2026 then 100
  else if r.actuals2025 ≠ 0 then increaseAmt r / r.actuals2025 * 100
  else 0

/-- The two variance columns of src/app.py lines 102–104, in table order:
for each row, `(Increase_Amt, Var %)`. -/
def computeVariance (T : List Row) : List (ℚ × ℚ) :=
  T.map (fun r => (increaseAmt r, varPct r))

/-- Sum of one monetary column over a table. -/
def colSum (f : Row → ℚ) (T : List Row) : ℚ := (T.map f).sum

/-! ## The note-directive regex

src/app.py line 82: `re.search(r'(?:See line|Already in Line)\s+(\d+)', note,
re.IGNORECASE)`, then `int(match.group(1))`.  We model `re.search` as a scan
for the leftmost position where the pattern matches: one of the two keyword
alternatives (case-insensitively, the literal spaces matching only a space),
then at least one whitespace character, then at least one digit; the captured
group is the maximal digit run there. -/

/-- First keyword alternative of the pattern, lowercased. -/
def seeLinePat : List Char := "see line".data

/-- Second keyword alternative of the pattern, lowercased. -/
def alreadyPat : List Char := "already in line".data

/-- Case-insensitive literal match of a pattern at the head of the input;
returns the remaining input on success. -/
def matchCI : List Char → List Char → Option (List Char)
  | [], cs => some cs
  | _ :: _, [] => none
  | p :: ps, c :: cs => if c.toLower = p.toLower then matchCI ps cs else none

/-- Try the whole directive pattern at this position of the note: a keyword
(`See line` tried before `Already in Line`, as in the alternation), then
`\s+`, then `\d+`; the result is the value of the captured digits. -/
def matchDirAt (cs : List Char) : Option ℕ :=
  let after :=
    match matchCI seeLinePat cs with
    | some r => some r
    | none => matchCI alreadyPat cs
  match after with
  | none => none
  | some rest =>
    let ws := rest.takeWhile isWsChar
    let ds := (rest.dropWhile isWsChar).takeWhile isDigitChar
    if !ws.isEmpty && !ds.isEmpty then some (digitsVal ds) else none

/-- Leftmost match of the directive pattern: try each start position from the
left, as `re.search` does. -/
def searchDir : List Char → Option ℕ
  | [] => none
  | c :: cs =>
    match matchDirAt (c :: cs) with
    | some n => some n
    | none => searchDir cs

/-- The reallocation directive encoded in a note, if any: the target line
number named by the first `"See line <n>"` / `"Already in Line <n>"`
occurrence (src/app.py lines 81–84). -/
def findDirective (note : String) : Option ℕ := searchDir note.data

/-! ## The reallocation pass

src/app.py lines 79–91.  The loop `for idx, row in adj_df.iterrows()` iterates
over a snapshot of the table: pandas `iterrows` materializes `self.values`
when the generator starts, and with mixed column dtypes that is a fresh object
array, so the `row` seen at each step holds the *pre-loop* values even though
`adj_df` is mutated by `.at` assignments inside the loop.  We therefore fold
over the original table `T` for the per-step donor row, while the mutations
accumulate in the `stored` state.  The target lookup
`adj_df[adj_df['Line'] == target_line].index` runs against the mutated table,
but the `Line` column is never mutated, so it is a lookup by line number. -/

/-- Replace the element at a position by the image under `f`; out-of-range
positions leave the list unchanged (models `df.at[i, col] = ...` on the
positional index). -/
def modifyAt {α : Type} (l : List α) (i : ℕ) (f : α → α) : List α :=
  match l, i with
  | [], _ => []
  | a :: t, 0 => f a :: t
  | a :: t, n + 1 => a :: modifyAt t n f

/-- Index of the first row whose `Line` equals `t`:
`adj_df[adj_df['Line'] == target_line].index` and taking element `[0]`. -/
def findLineIdx (t : ℚ) : List Row → Option ℕ
  | [] => none
  | r :: rest => if r.line = t then some 0 else (findLineIdx t rest).map (fun n => n + 1)

/-- One iteration of the reallocation loop (src/app.py lines 81–91) for the
snapshot row `orig` sitting at position `idx`: if its note holds a directive
whose line number matches some row of the current `stored` table, add the
snapshot row's 2025 actual to the target row's stored 2025 actual, then zero
the donor's stored 2025 actual.  Otherwise the state is unchanged and no
error is raised. -/
def reallocStep (stored : List Row) (orig : Row) (idx : ℕ) : List Row :=
  match findDirective orig.note with
  | none => stored
  | some t =>
    match findLineIdx (t : ℚ) stored with
    | none => stored
    | some ti =>
      modifyAt
        (modifyAt stored ti (fun r => { r with actuals2025 := r.actuals2025 + orig.actuals2025 }))
        idx (fun r => { r with actuals2025 := 0 })

/-- The reallocation loop run over an explicit sequence of row positions
(donor rows are always read from the snapshot `T`).  The script itself uses
the natural order `0, 1, …, n-1`; the general form lets us reason about
order (in)dependence. -/
def reallocOrder (T : List Row) (ord : List ℕ) : List Row :=
  ord.foldl (fun stored i =>
    match T.get? i with
    | some orig => reallocStep stored orig i
    | none => stored) T

/-- The reallocation pass of src/app.py lines 79–91: every row processed once,
in table order, donor values read from the snapshot. -/
def realloc (T : List Row) : List Row := reallocOrder T (List.range T.length)

/-- The `Diff` column of src/app.py line 94: `2026 Budget - 2025 Actuals`
computed on the *reallocated* table. -/
def diffCol (T : List Row) : List ℚ :=
  (realloc T).map (fun r => r.budget2026 - r.actuals2025)

/-! ## Derived views of the reallocation used for the order/total claims -/

/-- The resolved target of row `i`'s directive, if any: the position of the
first row of `T` whose `Line` equals the directive's number.  (During the
loop the lookup runs over the mutated table, but lines are never mutated, so
it coincides with this lookup over `T`; proved below.) -/
def resolvedTarget (T : List Row) (i : ℕ) : Option ℕ :=
  (T.get? i).bind fun r => (findDirective r.note).bind fun t => findLineIdx (t : ℚ) T

/-- The snapshot 2025 actual at position `i`. -/
def priorAt (T : List Row) (i : ℕ) : ℚ :=
  match T.get? i with
  | some r => r.actuals2025
  | none => 0

/-- One loop iteration with the directive pre-resolved against the snapshot:
equal to `reallocStep` on every state reachable in the loop (proved below). -/
def reallocStepPre (T : List Row) (stored : List Row) (i : ℕ) : List Row :=
  match resolvedTarget T i with
  | none => stored
  | some ti =>
    modifyAt
      (modifyAt stored ti (fun r => { r with actuals2025 := r.actuals2025 + priorAt T i }))
      i (fun r => { r with actuals2025 := 0 })

/-- Row `i` has a directive that resolves to some target row. -/
def isDonor (T : List Row) (i : ℕ) : Bool := (resolvedTarget T i).isSome

/-- No resolved directive targets a row that itself carries a resolved
directive: donors are never targets (this also rules out self-targeting). -/
def noChains (T : List Row) : Prop :=
  ∀ i ti, resolvedTarget T i = some ti → isDonor T ti = false

/-- Executable check for `noChains` (rows beyond the table length carry no
directive, so scanning the table's positions suffices). -/
def noChainsB (T : List Row) : Bool :=
  (List.range T.length).all (fun i =>
    match resolvedTarget T i with
    | none => true
    | some ti => !(isDonor T ti))

/-- Executable check that no resolved directive targets its own row. -/
def noSelfTargetB (T : List Row) : Bool :=
  (List.range T.length).all (fun i => decide (resolvedTarget T i ≠ some i))

/-- Replace the note of the row at position `i`. -/
def setNoteAt (T : List Row) (i : ℕ) (s : String) : List Row :=
  modifyAt T i (fun r => { r with note := s })

/-! ## Fixtures -/

/-- Row 1 of the spec's 3-row end-to-end fixture (§8). -/
def waterRow : Row :=
  { line := 1, category := "Utilities", area := "Water", budget2026 := 1200,
    actuals2025 := 1000, actuals2024 := 0, note := "" }

/-- Row 2 of the fixture: its note directs its 2025 actual into Line 1. -/
def sewageRow : Row :=
  { line := 2, category := "Utilities", area := "Sewage", budget2026 := 0,
    actuals2025 := 500, actuals2024 := 0, note := "Already in Line 1" }

/-- Row 3 of the fixture. -/
def payrollRow : Row :=
  { line := 3, category := "Staff", area := "Payroll", budget2026 := 2000,
    actuals2025 := 2000, actuals2024 := 0, note := "" }

/-- The 3-row end-to-end fixture of the spec (§8): Water / Sewage / Payroll. -/
def oasisFixture : List Row := [waterRow, sewageRow, payrollRow]

/-- A directive chain: row 0 donates to line 2 and row 1 donates to line 3,
so the target of row 0's directive is itself a donor. -/
def chainFixture : List Row :=
  [ { line := 1, category := "A", area := "a", budget2026 := 0,
      actuals2025 := 100, actuals2024 := 0, note := "See line 2" },
    { line := 2, category := "B", area := "b", budget2026 := 0,
      actuals2025 := 200, actuals2024 := 0, note := "See line 3" },
    { line := 3, category := "C", area := "c", budget2026 := 0,
      actuals2025 := 300, actuals2024 := 0, note := "" } ]

/-- A row whose note references a line number that exists in no row. -/
def badNoteRow : Row :=
  { line := 1, category := "Ops", area := "Pool", budget2026 := 400,
    actuals2025 := 100, actuals2024 := 0, note := "See line 99" }

/-- Fixture with one directive pointing at the nonexistent line 99. -/
def badTargetFixture : List Row :=
  [ badNoteRow,
    { line := 2, category := "Ops", area := "Gym", budget2026 := 700,
      actuals2025 := 600, actuals2024 := 0, note := "" } ]

/-- Fixture whose notes carry no reallocation directive at all. -/
def noDirectiveFixture : List Row :=
  [ waterRow, payrollRow,
    { line := 9, category := "Admin", area := "Office", budget2026 := 10,
      actuals2025 := 20, actuals2024 := 30,
      note := "No justification provided." } ]

/-! ## Helper lemmas -/

/-- Converting twice multiplies each monetary field by the product of the
rates. -/
lemma convertRow_convertRow (r1 r2 : ℚ) (r : Row) :
    convertRow r2 (convertRow r1 r) = convertRow (r1 * r2) r := by
  cases r
  simp [convertRow, convert, mul_assoc]

/-- `Var %` is invariant under conversion by a positive rate: the rate scales
numerator and denominator alike. -/
lemma varPct_convertRow (rate : ℚ) (hr : 0 < rate) (r : Row) :
    varPct (convertRow rate r) = varPct r := by
  have hrne : rate ≠ 0 := ne_of_gt hr
  rcases eq_or_ne r.actuals2025 0 with h0 | h0
  · rcases le_or_lt r.budget2026 0 with hb | hb
    · have hb' : ¬ 0 < r.budget2026 * rate := by
        exact not_lt.mpr (mul_nonpos_of_nonpos_of_nonneg hb (le_of_lt hr))
      simp [varPct, convertRow, convert, h0, hrne, not_lt.mpr hb, hb']
    · have hb' : 0 < r.budget2026 * rate := mul_pos hb hr
      simp [varPct, convertRow, convert, h0, hb, hb']
  · have ha' : r.actuals2025 * rate ≠ 0 := mul_ne_zero h0 hrne
    simp only [varPct, convertRow, convert, increaseAmt]
    have hc1 : ¬ (r.actuals2025 * rate = 0 ∧ 0 < r.budget2026 * rate) :=
      fun hcon => ha' hcon.1
    have hc2 : ¬ (r.actuals2025 = 0 ∧ 0 < r.budget2026) :=
      fun hcon => h0 hcon.1
    rw [if_neg hc1, if_neg hc2, if_pos ha', if_pos h0]
    field_simp
    ring

/-! ## List surgery lemmas -/

/-- `modifyAt` preserves length. -/
lemma length_modifyAt {α : Type} (l : List α) (i : ℕ) (f : α → α) :
    (modifyAt l i f).length = l.length := by
  induction l generalizing i with
  | nil => rfl
  | cons a t ih =>
    cases i with
    | zero => rfl
    | succ n => simp [modifyAt, ih]

/-- Modifications at distinct positions commute. -/
lemma modifyAt_comm {α : Type} (l : List α) (p q : ℕ) (f g : α → α) (h : p ≠ q) :
    modifyAt (modifyAt l p f) q g = modifyAt (modifyAt l q g) p f := by
  induction l generalizing p q with
  | nil => rfl
  | cons a t ih =>
    cases p with
    | zero =>
      cases q with
      | zero => exact absurd rfl h
      | succ m => rfl
    | succ n =>
      cases q with
      | zero => rfl
      | succ m => simp [modifyAt, ih n m (by omega)]

/-- Two modifications at one position compose. -/
lemma modifyAt_modifyAt {α : Type} (l : List α) (p : ℕ) (f g : α → α) :
    modifyAt (modifyAt l p f) p g = modifyAt l p (fun a => g (f a)) := by
  induction l generalizing p with
  | nil => rfl
  | cons a t ih =>
    cases p with
    | zero => rfl
    | succ n => simp [modifyAt, ih]

/-- Reading a position other than the modified one. -/
lemma get?_modifyAt_ne {α : Type} (l : List α) (p j : ℕ) (f : α → α) (h : p ≠ j) :
    (modifyAt l p f).get? j = l.get? j := by
  induction l generalizing p j with
  | nil => rfl
  | cons a t ih =>
    cases p with
    | zero =>
      cases j with
      | zero => exact absurd rfl h
      | succ m => rfl
    | succ n =>
      cases j with
      | zero => rfl
      | succ m =>
        show (modifyAt t n f).get? m = t.get? m
        exact ih n m (by omega)

/-- Reading the modified position. -/
lemma get?_modifyAt_self {α : Type} (l : List α) (p : ℕ) (f : α → α) :
    (modifyAt l p f).get? p = (l.get? p).map f := by
  induction l generalizing p with
  | nil => rfl
  | cons a t ih =>
    cases p with
    | zero => rfl
    | succ n =>
      show (modifyAt t n f).get? n = (t.get? n).map f
      exact ih n

/-- Unfolding a column sum over a cons cell. -/
lemma colSum_cons (g : Row → ℚ) (r : Row) (t : List Row) :
    colSum g (r :: t) = g r + colSum g t := by
  simp [colSum]

/-- Effect of one in-place modification on a column sum. -/
lemma colSum_modifyAt (g : Row → ℚ) (l : List Row) (p : ℕ) (f : Row → Row) (r : Row)
    (h : l.get? p = some r) :
    colSum g (modifyAt l p f) = colSum g l - g r + g (f r) := by
  induction l generalizing p with
  | nil => exact absurd h (by simp)
  | cons a t ih =>
    cases p with
    | zero =>
      have ha : a = r := by simpa using h
      subst ha
      rw [modifyAt, colSum_cons, colSum_cons]
      ring
    | succ n =>
      have h' : t.get? n = some r := by simpa using h
      rw [modifyAt, colSum_cons, colSum_cons, ih n h']
      ring

/-- `findLineIdx` reads only the `Line` column. -/
lemma findLineIdx_congr (t : ℚ) (l1 l2 : List Row)
    (h : l1.map Row.line = l2.map Row.line) :
    findLineIdx t l1 = findLineIdx t l2 := by
  induction l1 generalizing l2 with
  | nil =>
    cases l2 with
    | nil => rfl
    | cons b t2 => exact absurd h (by simp)
  | cons a t1 ih =>
    cases l2 with
    | nil => exact absurd h (by simp)
    | cons b t2 =>
      simp only [List.map_cons, List.cons.injEq] at h
      simp only [findLineIdx]
      rw [h.1, ih t2 h.2]

/-- A resolved line lookup lands inside the table. -/
lemma findLineIdx_lt (t : ℚ) (l : List Row) (n : ℕ) (h : findLineIdx t l = some n) :
    n < l.length := by
  induction l generalizing n with
  | nil => exact absurd h (by simp [findLineIdx])
  | cons a tl ih =>
    simp only [findLineIdx] at h
    by_cases ha : a.line = t
    · rw [if_pos ha] at h
      cases h
      simp
    · rw [if_neg ha] at h
      cases hf : findLineIdx t tl with
      | none => rw [hf] at h; exact absurd h (by simp)
      | some m =>
        rw [hf] at h
        have hm : n = m + 1 := by simpa using h.symm
        have := ih m hf
        simp only [List.length_cons]
        omega

/-- `modifyAt` with a line-preserving function preserves the `Line` column. -/
lemma map_line_modifyAt (l : List Row) (p : ℕ) (f : Row → Row)
    (hf : ∀ r, (f r).line = r.line) :
    (modifyAt l p f).map Row.line = l.map Row.line := by
  induction l generalizing p with
  | nil => rfl
  | cons a t ih =>
    cases p with
    | zero => simp [modifyAt, hf]
    | succ n => simp [modifyAt, ih]

/-! ## Reallocation-pass lemmas -/

/-- The donor-zeroing modification preserves the `Line` column. -/
lemma line_zeroF (r : Row) : ({ r with actuals2025 := 0 } : Row).line = r.line := rfl

/-- The merge modification preserves the `Line` column. -/
lemma line_addF (c : ℚ) (r : Row) :
    ({ r with actuals2025 := r.actuals2025 + c } : Row).line = r.line := rfl

/-- One loop step never touches the `Line` column. -/
lemma map_line_reallocStep (stored : List Row) (orig : Row) (idx : ℕ) :
    (reallocStep stored orig idx).map Row.line = stored.map Row.line := by
  unfold reallocStep
  split
  · rfl
  · split
    · rfl
    · rw [map_line_modifyAt _ _ _ (line_zeroF),
        map_line_modifyAt _ _ _ (line_addF orig.actuals2025)]

/-- The pre-resolved step never touches the `Line` column. -/
lemma map_line_stepPre (T stored : List Row) (i : ℕ) :
    (reallocStepPre T stored i).map Row.line = stored.map Row.line := by
  unfold reallocStepPre
  split
  · rfl
  · rw [map_line_modifyAt _ _ _ (line_zeroF),
      map_line_modifyAt _ _ _ (line_addF (priorAt T i))]

/-- The pre-resolved step preserves length. -/
lemma length_stepPre (T stored : List Row) (i : ℕ) :
    (reallocStepPre T stored i).length = stored.length := by
  unfold reallocStepPre
  split
  · rfl
  · rw [length_modifyAt, length_modifyAt]

/-- An unresolved or absent directive leaves the state unchanged. -/
lemma stepPre_of_none (T b : List Row) (i : ℕ) (h : resolvedTarget T i = none) :
    reallocStepPre T b i = b := by
  unfold reallocStepPre
  rw [h]

/-- A resolved directive merges the snapshot amount and zeroes the donor. -/
lemma stepPre_of_some (T b : List Row) (i ti : ℕ) (h : resolvedTarget T i = some ti) :
    reallocStepPre T b i =
      modifyAt
        (modifyAt b ti (fun r => { r with actuals2025 := r.actuals2025 + priorAt T i }))
        i (fun r => { r with actuals2025 := 0 }) := by
  unfold reallocStepPre
  rw [h]

/-- Directive resolution when the row and its directive are known. -/
lemma resolvedTarget_eq (T : List Row) (i : ℕ) (r : Row) (t : ℕ)
    (hg : T.get? i = some r) (hd : findDirective r.note = some t) :
    resolvedTarget T i = findLineIdx (t : ℚ) T := by
  unfold resolvedTarget
  rw [hg, Option.some_bind, hd, Option.some_bind]

/-- A row without a directive resolves to nothing. -/
lemma resolvedTarget_of_no_directive (T : List Row) (i : ℕ) (r : Row)
    (hg : T.get? i = some r) (hd : findDirective r.note = none) :
    resolvedTarget T i = none := by
  unfold resolvedTarget
  rw [hg, Option.some_bind, hd]
  rfl

/-- A position outside the table resolves to nothing. -/
lemma resolvedTarget_of_get_none (T : List Row) (i : ℕ) (hg : T.get? i = none) :
    resolvedTarget T i = none := by
  unfold resolvedTarget
  rw [hg]
  rfl

/-- A step for a row with no directive is a no-op. -/
lemma reallocStep_no_dir (stored : List Row) (orig : Row) (idx : ℕ)
    (hd : findDirective orig.note = none) :
    reallocStep stored orig idx = stored := by
  unfold reallocStep
  rw [hd]

/-- Unfolding a step once the directive is known. -/
lemma reallocStep_dir (stored : List Row) (orig : Row) (idx t : ℕ)
    (hd : findDirective orig.note = some t) :
    reallocStep stored orig idx =
      (match findLineIdx (t : ℚ) stored with
       | none => stored
       | some ti =>
         modifyAt
           (modifyAt stored ti
             (fun r => { r with actuals2025 := r.actuals2025 + orig.actuals2025 }))
           idx (fun r => { r with actuals2025 := 0 })) := by
  unfold reallocStep
  rw [hd]

/-- On any state whose `Line` column agrees with the snapshot's, the loop body
of src/app.py (lookup in the mutated table) coincides with the pre-resolved
step (lookup in the snapshot). -/
lemma reallocStep_eq_pre (T stored : List Row) (i : ℕ)
    (h : stored.map Row.line = T.map Row.line) :
    (match T.get? i with
     | some orig => reallocStep stored orig i
     | none => stored) = reallocStepPre T stored i := by
  cases hg : T.get? i with
  | none => rw [stepPre_of_none T stored i (resolvedTarget_of_get_none T i hg)]
  | some orig =>
    show reallocStep stored orig i = reallocStepPre T stored i
    cases hd : findDirective orig.note with
    | none =>
      rw [reallocStep_no_dir stored orig i hd,
        stepPre_of_none T stored i (resolvedTarget_of_no_directive T i orig hg hd)]
    | some t =>
      have hrt := resolvedTarget_eq T i orig t hg hd
      rw [reallocStep_dir stored orig i t hd, findLineIdx_congr (t : ℚ) stored T h]
      cases hf : findLineIdx (t : ℚ) T with
      | none => rw [stepPre_of_none T stored i (hrt.trans hf)]
      | some ti =>
        rw [stepPre_of_some T stored i ti (hrt.trans hf)]
        have hp : priorAt T i = orig.actuals2025 := by unfold priorAt; rw [hg]
        rw [hp]

/-- The whole loop, on any processing order, equals the fold of the
pre-resolved step. -/
lemma reallocOrder_eq_pre (T : List Row) (ord : List ℕ) :
    reallocOrder T ord = ord.foldl (reallocStepPre T) T := by
  unfold reallocOrder
  have key : ∀ (o : List ℕ) (stored : List Row),
      stored.map Row.line = T.map Row.line →
      o.foldl (fun stored i =>
        match T.get? i with
        | some orig => reallocStep stored orig i
        | none => stored) stored = o.foldl (reallocStepPre T) stored := by
    intro o
    induction o with
    | nil => intro stored _; rfl
    | cons i rest ih =>
      intro stored hline
      simp only [List.foldl_cons]
      rw [reallocStep_eq_pre T stored i hline]
      exact ih _ (by rw [map_line_stepPre]; exact hline)
  exact key ord T rfl

/-- Index bounds carried by a resolved directive. -/
lemma resolvedTarget_bounds (T : List Row) (i ti : ℕ)
    (h : resolvedTarget T i = some ti) :
    i < T.length ∧ ti < T.length := by
  cases hg : T.get? i with
  | none =>
    rw [resolvedTarget_of_get_none T i hg] at h
    exact Option.noConfusion h
  | some r =>
    refine ⟨?_, ?_⟩
    · by_contra hlt
      push_neg at hlt
      rw [List.get?_eq_none.mpr hlt] at hg
      exact Option.noConfusion hg
    · cases hd : findDirective r.note with
      | none =>
        rw [resolvedTarget_of_no_directive T i r hg hd] at h
        exact Option.noConfusion h
      | some t =>
        rw [resolvedTarget_eq T i r t hg hd] at h
        exact findLineIdx_lt _ _ _ h

/-- The executable `noChainsB` check implies `noChains`. -/
lemma noChains_of_check (T : List Row) (h : noChainsB T = true) : noChains T := by
  intro i ti hres
  have hib := (resolvedTarget_bounds T i ti hres).1
  have hall := List.all_eq_true.mp h i (List.mem_range.mpr hib)
  rw [hres] at hall
  simpa using hall

/-! ## Note edits commute with the reallocation pass -/

/-- A note edit commutes with a merge modification. -/
lemma setNote_modifyAt_add (l : List Row) (p q : ℕ) (c : ℚ) (s : String) :
    modifyAt (modifyAt l p (fun r => { r with note := s })) q
        (fun r => { r with actuals2025 := r.actuals2025 + c })
      = modifyAt (modifyAt l q (fun r => { r with actuals2025 := r.actuals2025 + c })) p
          (fun r => { r with note := s }) := by
  rcases eq_or_ne p q with rfl | hpq
  · rw [modifyAt_modifyAt, modifyAt_modifyAt]
  · exact modifyAt_comm l p q _ _ hpq

/-- A note edit commutes with the donor-zeroing modification. -/
lemma setNote_modifyAt_zero (l : List Row) (p q : ℕ) (s : String) :
    modifyAt (modifyAt l p (fun r => { r with note := s })) q
        (fun r => { r with actuals2025 := 0 })
      = modifyAt (modifyAt l q (fun r => { r with actuals2025 := 0 })) p
          (fun r => { r with note := s }) := by
  rcases eq_or_ne p q with rfl | hpq
  · rw [modifyAt_modifyAt, modifyAt_modifyAt]
  · exact modifyAt_comm l p q _ _ hpq

/-- A note edit on the state commutes with one pre-resolved step. -/
lemma stepPre_setNoteAt_comm (T stored : List Row) (i j : ℕ) (s : String) :
    reallocStepPre T (setNoteAt stored i s) j = setNoteAt (reallocStepPre T stored j) i s := by
  cases hr : resolvedTarget T j with
  | none => rw [stepPre_of_none T _ j hr, stepPre_of_none T stored j hr]
  | some tj =>
    rw [stepPre_of_some T _ j tj hr, stepPre_of_some T stored j tj hr]
    unfold setNoteAt
    rw [setNote_modifyAt_add stored i tj (priorAt T j) s,
      setNote_modifyAt_zero _ i j s]

/-- A note edit on the initial state passes through the whole fold. -/
lemma foldl_stepPre_setNote (T : List Row) (i : ℕ) (s : String) (ord : List ℕ) :
    ∀ stored : List Row,
      ord.foldl (reallocStepPre T) (setNoteAt stored i s)
        = setNoteAt (ord.foldl (reallocStepPre T) stored) i s := by
  induction ord with
  | nil => intro stored; rfl
  | cons j rest ih =>
    intro stored
    simp only [List.foldl_cons]
    rw [stepPre_setNoteAt_comm T stored i j s, ih]

/-- Note edits never change the 2025 actuals read by the pass. -/
lemma priorAt_setNote (T : List Row) (i : ℕ) (s : String) (j : ℕ) :
    priorAt (setNoteAt T i s) j = priorAt T j := by
  unfold priorAt setNoteAt
  rcases eq_or_ne i j with rfl | hij
  · rw [get?_modifyAt_self]
    cases T.get? i with
    | none => rfl
    | some r => rfl
  · rw [get?_modifyAt_ne T i j _ hij]

/-- Erasing the note of a row whose directive does not resolve changes no
directive resolution anywhere in the table. -/
lemma resolvedTarget_eraseNote (T : List Row) (i : ℕ) (r : Row) (t : ℕ)
    (hg : T.get? i = some r) (hd : findDirective r.note = some t)
    (hf : findLineIdx (t : ℚ) T = none) (j : ℕ) :
    resolvedTarget (setNoteAt T i "") j = resolvedTarget T j := by
  have hmap : (setNoteAt T i "").map Row.line = T.map Row.line :=
    map_line_modifyAt T i _ (fun r => rfl)
  have hfl : ∀ q : ℚ, findLineIdx q (setNoteAt T i "") = findLineIdx q T :=
    fun q => findLineIdx_congr q _ T hmap
  rcases eq_or_ne i j with rfl | hij
  · have hg' : (setNoteAt T i "").get? i = some { r with note := "" } := by
      unfold setNoteAt
      rw [get?_modifyAt_self, hg]
      rfl
    rw [resolvedTarget_of_no_directive _ i _ hg' (by rfl)]
    rw [resolvedTarget_eq T i r t hg hd, hf]
  · have hg' : (setNoteAt T i "").get? j = T.get? j := by
      unfold setNoteAt
      exact get?_modifyAt_ne T i j _ hij
    cases hgj : T.get? j with
    | none =>
      rw [resolvedTarget_of_get_none _ j (hg'.trans hgj),
        resolvedTarget_of_get_none T j hgj]
    | some rj =>
      cases hdj : findDirective rj.note with
      | none =>
        rw [resolvedTarget_of_no_directive _ j rj (hg'.trans hgj) hdj,
          resolvedTarget_of_no_directive T j rj hgj hdj]
      | some tj =>
        rw [resolvedTarget_eq _ j rj tj (hg'.trans hgj) hdj,
          resolvedTarget_eq T j rj tj hgj hdj, hfl]

/-- Under the `resolvedTarget_eraseNote` hypotheses the pre-resolved step is
the same function for the edited and unedited snapshots. -/
lemma stepPre_eraseNote (T : List Row) (i : ℕ) (r : Row) (t : ℕ)
    (hg : T.get? i = some r) (hd : findDirective r.note = some t)
    (hf : findLineIdx (t : ℚ) T = none) :
    reallocStepPre (setNoteAt T i "") = reallocStepPre T := by
  funext stored j
  cases hr : resolvedTarget T j with
  | none =>
    rw [stepPre_of_none T stored j hr,
      stepPre_of_none _ stored j ((resolvedTarget_eraseNote T i r t hg hd hf j).trans hr)]
  | some tj =>
    rw [stepPre_of_some T stored j tj hr,
      stepPre_of_some _ stored j tj
        ((resolvedTarget_eraseNote T i r t hg hd hf j).trans hr),
      priorAt_setNote T i "" j]

/-! ## Commutativity and sum preservation of the pass -/

/-- Under `noChains`, two pre-resolved steps commute on every state: the four
touched positions are pairwise disjoint except possibly the two merge
targets, and merges into one target commute. -/
lemma stepPre_comm (T : List Row) (h : noChains T) (b : List Row) (i j : ℕ) :
    reallocStepPre T (reallocStepPre T b i) j
      = reallocStepPre T (reallocStepPre T b j) i := by
  rcases eq_or_ne i j with rfl | hij
  · rfl
  cases hi : resolvedTarget T i with
  | none =>
    rw [stepPre_of_none T b i hi, stepPre_of_none T (reallocStepPre T b j) i hi]
  | some ti =>
    cases hj : resolvedTarget T j with
    | none =>
      rw [stepPre_of_none T b j hj, stepPre_of_none T (reallocStepPre T b i) j hj]
    | some tj =>
      have hdi : isDonor T i = true := by simp [isDonor, hi]
      have hdj : isDonor T j = true := by simp [isDonor, hj]
      have h1 : isDonor T ti = false := h i ti hi
      have h2 : isDonor T tj = false := h j tj hj
      have hti_j : ti ≠ j := by intro he; rw [he, hdj] at h1; exact Bool.noConfusion h1
      have htj_i : tj ≠ i := by intro he; rw [he, hdi] at h2; exact Bool.noConfusion h2
      rw [stepPre_of_some T b i ti hi, stepPre_of_some T _ j tj hj,
        stepPre_of_some T b j tj hj, stepPre_of_some T _ i ti hi]
      rw [modifyAt_comm _ i tj _ _ (Ne.symm htj_i), modifyAt_comm _ j ti _ _ (Ne.symm hti_j)]
      rw [modifyAt_comm _ j i _ _ (Ne.symm hij)]
      have hXY :
          modifyAt (modifyAt b ti
              (fun r => { r with actuals2025 := r.actuals2025 + priorAt T i })) tj
            (fun r => { r with actuals2025 := r.actuals2025 + priorAt T j })
          = modifyAt (modifyAt b tj
              (fun r => { r with actuals2025 := r.actuals2025 + priorAt T j })) ti
            (fun r => { r with actuals2025 := r.actuals2025 + priorAt T i }) := by
        rcases eq_or_ne ti tj with rfl | hne
        · rw [modifyAt_modifyAt, modifyAt_modifyAt]
          congr 1
          funext r
          cases r
          simp only [Row.mk.injEq, true_and, and_true]
          ring
        · exact modifyAt_comm b ti tj _ _ hne
      rw [hXY]

/-- Under `noChains`, the fold of pre-resolved steps preserves the total of
the 2025 actuals, provided every still-unprocessed donor holds its snapshot
amount. -/
lemma foldl_stepPre_sum (T : List Row) (h : noChains T) :
    ∀ (ord : List ℕ) (stored : List Row),
      stored.length = T.length →
      ord.Nodup →
      (∀ i ∈ ord, isDonor T i = true → priorAt stored i = priorAt T i) →
      colSum (fun r => r.actuals2025) (ord.foldl (reallocStepPre T) stored)
        = colSum (fun r => r.actuals2025) stored := by
  intro ord
  induction ord with
  | nil => intro stored _ _ _; rfl
  | cons i rest ih =>
    intro stored hlen hnd hprior
    simp only [List.foldl_cons]
    cases hi : resolvedTarget T i with
    | none =>
      rw [stepPre_of_none T stored i hi]
      exact ih stored hlen (List.nodup_cons.mp hnd).2
        (fun j hj hdj => hprior j (List.mem_cons_of_mem i hj) hdj)
    | some ti =>
      have hdi : isDonor T i = true := by simp [isDonor, hi]
      have h1 : isDonor T ti = false := h i ti hi
      have hti_i : ti ≠ i := by intro he; rw [he, hdi] at h1; exact Bool.noConfusion h1
      obtain ⟨hiT, htiT⟩ := resolvedTarget_bounds T i ti hi
      have hiS : i < stored.length := by omega
      have htiS : ti < stored.length := by omega
      obtain ⟨ri, hri⟩ : ∃ r, stored.get? i = some r :=
        ⟨stored.get ⟨i, hiS⟩, List.get?_eq_get hiS⟩
      obtain ⟨rti, hrti⟩ : ∃ r, stored.get? ti = some r :=
        ⟨stored.get ⟨ti, htiS⟩, List.get?_eq_get htiS⟩
      have hpi : ri.actuals2025 = priorAt T i := by
        have hp := hprior i (List.mem_cons_self i rest) hdi
        unfold priorAt at hp
        rw [hri] at hp
        exact hp
      have hnd' := (List.nodup_cons.mp hnd).2
      have hmem := (List.nodup_cons.mp hnd).1
      have hget_i :
          (modifyAt stored ti
            (fun r => { r with actuals2025 := r.actuals2025 + priorAt T i })).get? i
            = some ri := by
        rw [get?_modifyAt_ne _ _ _ _ hti_i, hri]
      have hl :
          (modifyAt
            (modifyAt stored ti
              (fun r => { r with actuals2025 := r.actuals2025 + priorAt T i }))
            i (fun r => { r with actuals2025 := 0 })).length = T.length := by
        rw [length_modifyAt, length_modifyAt]
        exact hlen
      have hp :
          ∀ j ∈ rest, isDonor T j = true →
            priorAt
              (modifyAt
                (modifyAt stored ti
                  (fun r => { r with actuals2025 := r.actuals2025 + priorAt T i }))
                i (fun r => { r with actuals2025 := 0 })) j = priorAt T j := by
        intro j hj hdj
        have hj_i : i ≠ j := fun he => hmem (by rw [he]; exact hj)
        have htij : ti ≠ j := by
          intro he
          rw [he, hdj] at h1
          exact Bool.noConfusion h1
        unfold priorAt
        rw [get?_modifyAt_ne _ _ _ _ hj_i, get?_modifyAt_ne _ _ _ _ htij]
        have hrest := hprior j (List.mem_cons_of_mem i hj) hdj
        unfold priorAt at hrest
        exact hrest
      rw [stepPre_of_some T stored i ti hi, ih _ hl hnd' hp,
        colSum_modifyAt _ _ i _ ri hget_i, colSum_modifyAt _ _ ti _ rti hrti]
      dsimp only
      rw [hpi]
      ring

/-- C2, counterexample: normalization does *not* strip currency symbols and
thousands separators — `pd.to_numeric` treats `"$1,234.50"` as non-numeric
and the cell coerces to `0`, not to `1234.50` as the claim states. -/
theorem claim_C2_counterexample : toNumeric "$1,234.50" ≠ (2469 : ℚ) / 2 := by decide

/-- C2, amended: over the claim's cell set, normalization yields
`0, 1234.50, 0, 0, 0`: the currency-formatted cell is coerced to zero like
any other non-numeric token (no symbol/separator stripping happens), the
plain numeral parses, surrounding whitespace alone is tolerated, and every
cell is absorbed without failing the load (`toNumeric` is total). -/
theorem claim_C2_amended :
    toNumeric "$1,234.50" = 0 ∧
    toNumeric "1234.50" = (2469 : ℚ) / 2 ∧
    toNumeric "-" = 0 ∧
    toNumeric "" = 0 ∧
    toNumeric "abc" = 0 ∧
    toNumeric "  1234.50 " = (2469 : ℚ) / 2 ∧
    parseDecimal "$1,234.50" = none := by decide

/-- C5, counterexample: a negative numeric cell survives normalization as a
negative amount — `pd.to_numeric` only coerces *non-numeric* cells to zero,
it does not clamp signs, so the invariant "every normalized amount is ≥ 0"
fails on input `"-5"`. -/
theorem claim_C5_counterexample : toNumeric "-5" < 0 := by decide

/-- C5, amended: every normalized amount is a (total, numeric) rational;
malformed or placeholder cells coerce to `0`; and the result is nonnegative
provided the cell does not parse as a negative numeral — negativity can enter
only through an explicitly negative numeric cell. -/
theorem claim_C5_amended (s : String)
    (h : ∀ q, parseDecimal s = some q → 0 ≤ q) :
    0 ≤ toNumeric s ∧ (parseDecimal s = none → toNumeric s = 0) := by
  constructor
  · cases hp : parseDecimal s with
    | none => simp [toNumeric, hp]
    | some q => simpa [toNumeric, hp] using h q hp
  · intro hn
    simp [toNumeric, hn]

/-- C5, witness for the amended claim at the cell `"abc"`. -/
theorem claim_C5_witness :
    0 ≤ toNumeric "abc" ∧ (parseDecimal "abc" = none → toNumeric "abc" = 0) :=
  claim_C5_amended "abc" (by
    intro q hq
    rw [show parseDecimal "abc" = none by decide] at hq
    exact Option.noConfusion hq)

/-- C3: the `Var %` rule of src/app.py lines 102–104 — `100` when the prior
is zero and the current is positive, `0` when both are zero, and
`diff / prior * 100` when the prior is nonzero; the function is total (the
division sits under the nonzero guard, so no division by zero escapes), and
the variance columns preserve the input row order position by position. -/
theorem claim_C3 (T : List Row) (i : ℕ) (r : Row) (h : T.get? i = some r) :
    (computeVariance T).length = T.length ∧
    (computeVariance T).get? i = some (increaseAmt r, varPct r) ∧
    (r.actuals2025 = 0 → 0 < r.budget2026 → varPct r = 100) ∧
    (r.actuals2025 = 0 → r.budget2026 = 0 → varPct r = 0) ∧
    (r.actuals2025 ≠ 0 → varPct r = increaseAmt r / r.actuals2025 * 100) := by
  refine ⟨by simp [computeVariance], ?_, ?_, ?_, ?_⟩
  · simp only [computeVariance]
    rw [List.get?_map, h]
    rfl
  · intro h0 hpos
    simp [varPct, h0, hpos]
  · intro h0 hz
    simp [varPct, h0, hz]
  · intro hne
    rw [varPct, if_neg (by tauto), if_pos hne]

/-- C3, witness at row 2 of the end-to-end fixture. -/
theorem claim_C3_witness :
    (computeVariance oasisFixture).length = oasisFixture.length ∧
    (computeVariance oasisFixture).get? 1 = some (increaseAmt sewageRow, varPct sewageRow) ∧
    (sewageRow.actuals2025 = 0 → 0 < sewageRow.budget2026 → varPct sewageRow = 100) ∧
    (sewageRow.actuals2025 = 0 → sewageRow.budget2026 = 0 → varPct sewageRow = 0) ∧
    (sewageRow.actuals2025 ≠ 0 →
      varPct sewageRow = increaseAmt sewageRow / sewageRow.actuals2025 * 100) :=
  claim_C3 oasisFixture 1 sewageRow rfl

/-- C4: currency conversion is linear — converting by `r1` then `r2` equals
converting by `r1 * r2` (exactly, hence within any floating-point tolerance),
and summing a monetary column then converting equals converting then summing,
for each of the three period columns. -/
theorem claim_C4 (T : List Row) (r1 r2 : ℚ) :
    convertTable r2 (convertTable r1 T) = convertTable (r1 * r2) T ∧
    colSum (fun r => r.actuals2025) (convertTable r1 T)
      = convert r1 (colSum (fun r => r.actuals2025) T) ∧
    colSum (fun r => r.budget2026) (convertTable r1 T)
      = convert r1 (colSum (fun r => r.budget2026) T) ∧
    colSum (fun r => r.actuals2024) (convertTable r1 T)
      = convert r1 (colSum (fun r => r.actuals2024) T) := by
  refine ⟨?_, ?_, ?_, ?_⟩
  · induction T with
    | nil => rfl
    | cons r t ih =>
      simpa [convertTable] using ⟨convertRow_convertRow r1 r2 r, by
        simpa [convertTable] using ih⟩
  · induction T with
    | nil => simp [colSum, convertTable, convert]
    | cons r t ih =>
      simp only [colSum, convertTable, List.map_cons, List.sum_cons, convert] at ih ⊢
      rw [ih]
      simp [convertRow, convert]
      ring
  · induction T with
    | nil => simp [colSum, convertTable, convert]
    | cons r t ih =>
      simp only [colSum, convertTable, List.map_cons, List.sum_cons, convert] at ih ⊢
      rw [ih]
      simp [convertRow, convert]
      ring
  · induction T with
    | nil => simp [colSum, convertTable, convert]
    | cons r t ih =>
      simp only [colSum, convertTable, List.map_cons, List.sum_cons, convert] at ih ⊢
      rw [ih]
      simp [convertRow, convert]
      ring

/-- C10: the `Var %` column is invariant under the selected currency — for
positive rates `r1` and `r2`, the percentages computed after converting the
table by `r1` equal those computed after converting by `r2`, exactly. -/
theorem claim_C10 (T : List Row) (r1 r2 : ℚ) (h1 : 0 < r1) (h2 : 0 < r2) :
    (computeVariance (convertTable r1 T)).map Prod.snd
      = (computeVariance (convertTable r2 T)).map Prod.snd := by
  simp only [computeVariance, convertTable, List.map_map]
  congr 1
  funext r
  simp [Function.comp, varPct_convertRow r1 h1 r, varPct_convertRow r2 h2 r]

/-- C10, witness at the end-to-end fixture with the USD and CAD rates. -/
theorem claim_C10_witness :
    (computeVariance (convertTable rateUSD oasisFixture)).map Prod.snd
      = (computeVariance (convertTable rateCAD oasisFixture)).map Prod.snd :=
  claim_C10 oasisFixture rateUSD rateCAD (by decide) (by decide)

/-- C1, counterexample: the claim's predicted percentages `[-20, 0, 0]` do not
match the code — the table's `Var %` is computed on the *original* (converted
but unreallocated) 2025 actuals, yielding `[20, -100, 0]` on the fixture. -/
theorem claim_C1_counterexample :
    (computeVariance (convertTable rateMXN oasisFixture)).map Prod.snd
      ≠ [-20, 0, 0] := by decide

/-- C1, amended: on the 3-row fixture, reallocation moves Line 2's 500 into
Line 1 (priors become `1500, 0, 2000`), and the driver `Diff` column — the
only variance computed on the reallocated data — is `[-300, 0, 0]`; the
table's `Increase_Amt` and `Var %`, however, are computed on the original
2025 actuals, giving `[200, -500, 0]` and `[20, -100, 0]` (not `-20, 0, 0`). -/
theorem claim_C1_amended :
    (realloc oasisFixture).map (fun r => r.actuals2025) = [1500, 0, 2000] ∧
    diffCol oasisFixture = [-300, 0, 0] ∧
    (computeVariance (convertTable rateMXN oasisFixture)).map Prod.fst
      = [200, -500, 0] ∧
    (computeVariance (convertTable rateMXN oasisFixture)).map Prod.snd
      = [20, -100, 0] := by decide

/-- C6: a directive whose line number matches no row is ignored entirely
(and, the pass being a total function, no error is raised): erasing that
note leaves the reallocation result unchanged except for the erased note
text itself — in particular every monetary value of every row, including the
donor's prior-period actual, is what it would have been without the
directive. -/
theorem claim_C6 (T : List Row) (i : ℕ) (r : Row) (t : ℕ)
    (hg : T.get? i = some r) (hd : findDirective r.note = some t)
    (hf : findLineIdx (t : ℚ) T = none) :
    realloc (setNoteAt T i "") = setNoteAt (realloc T) i "" := by
  have hlen : (setNoteAt T i "").length = T.length := length_modifyAt T i _
  rw [realloc, reallocOrder_eq_pre, realloc, reallocOrder_eq_pre, hlen,
    stepPre_eraseNote T i r t hg hd hf]
  exact foldl_stepPre_setNote T i "" (List.range T.length) T

/-- C6, witness on the two-row fixture whose first note says `See line 99`. -/
theorem claim_C6_witness :
    realloc (setNoteAt badTargetFixture 0 "") = setNoteAt (realloc badTargetFixture) 0 "" :=
  claim_C6 badTargetFixture 0 badNoteRow 99 (by decide) (by decide) (by decide)

/-- C7, counterexample: processing order does matter in general.  On the
chain fixture (row 0 donates to line 2 while row 2's row — line 2 — itself
donates to line 3), running the loop in the order `[1, 0, 2]` — a permutation
of the natural order — produces different final 2025 actuals than the
script's natural order. -/
theorem claim_C7_counterexample :
    ([1, 0, 2] : List ℕ).Perm (List.range chainFixture.length) ∧
    reallocOrder chainFixture [1, 0, 2] ≠ realloc chainFixture := by decide

/-- C7, amended: the final per-row totals are independent of the processing
order provided no resolved directive targets a row that itself carries a
resolved directive (donors are never targets).  Under that condition each
donor contributes its snapshot amount independently and the targets are
looked up by stable line number, so any permutation of the row order yields
the script's result.  With donor-targeting chains the claim fails (see the
counterexample). -/
theorem claim_C7_amended (T : List Row) (h : noChains T) (ord : List ℕ)
    (hp : ord.Perm (List.range T.length)) :
    reallocOrder T ord = realloc T := by
  rw [reallocOrder_eq_pre, realloc, reallocOrder_eq_pre]
  exact hp.foldl_eq' (fun x _ y _ z => stepPre_comm T h z x y) T

/-- C7, witness: on the end-to-end fixture (one donor, target not a donor)
the reversed-start order `[2, 0, 1]` gives the script's result. -/
theorem claim_C7_witness :
    reallocOrder oasisFixture [2, 0, 1] = realloc oasisFixture :=
  claim_C7_amended oasisFixture (noChains_of_check oasisFixture (by decide))
    [2, 0, 1] (by decide)

/-- C8: on a table none of whose notes contains a reallocation directive,
the pass returns the table unchanged. -/
theorem claim_C8 (T : List Row) (h : ∀ r ∈ T, findDirective r.note = none) :
    realloc T = T := by
  rw [realloc, reallocOrder_eq_pre]
  have hres : ∀ i, resolvedTarget T i = none := by
    intro i
    cases hg : T.get? i with
    | none => exact resolvedTarget_of_get_none T i hg
    | some r => exact resolvedTarget_of_no_directive T i r hg (h r (List.get?_mem hg))
  have key : ∀ (ord : List ℕ) (stored : List Row),
      ord.foldl (reallocStepPre T) stored = stored := by
    intro ord
    induction ord with
    | nil => intro stored; rfl
    | cons i rest ih =>
      intro stored
      simp only [List.foldl_cons]
      rw [stepPre_of_none T stored i (hres i)]
      exact ih stored
  exact key (List.range T.length) T

/-- C8, witness on a three-row fixture with directive-free notes. -/
theorem claim_C8_witness : realloc noDirectiveFixture = noDirectiveFixture :=
  claim_C8 noDirectiveFixture (by decide)

/-- C9, counterexample: even with no self-targeting directive, the pass can
lose money from the grand total.  On the chain fixture the donor row 1 first
receives row 0's 100 and is then zeroed when its own (snapshot-valued)
donation is processed, so the total of the 2025 actuals drops from 600 to
500. -/
theorem claim_C9_counterexample :
    noSelfTargetB chainFixture = true ∧
    colSum (fun r => r.actuals2025) (realloc chainFixture)
      ≠ colSum (fun r => r.actuals2025) chainFixture := by decide

/-- C9, amended: the pass preserves the grand total of prior-period actuals
provided no resolved directive targets a row that itself carries a resolved
directive (so in particular no self-targeting): each merge then adds the
donor's snapshot amount to its target and zeroes a donor that still holds
exactly that amount.  Ruling out self-targets alone is not enough (see the
counterexample). -/
theorem claim_C9_amended (T : List Row) (h : noChains T) :
    colSum (fun r => r.actuals2025) (realloc T)
      = colSum (fun r => r.actuals2025) T := by
  rw [realloc, reallocOrder_eq_pre]
  exact foldl_stepPre_sum T h (List.range T.length) T rfl
    (List.nodup_range T.length) (fun i _ _ => rfl)

/-- C9, witness on the end-to-end fixture: 1000 + 500 + 2000 is preserved. -/
theorem claim_C9_witness :
    colSum (fun r => r.actuals2025) (realloc oasisFixture)
      = colSum (fun r => r.actuals2025) oasisFixture :=
  claim_C9_amended oasisFixture (noChains_of_check oasisFixture (by decide))

end Oasis
